import Mathlib

/-!
Verification of the SpeakBuddies matchmaking server (`server.js`).

The server keeps three pieces of in-memory state:
  * `connectionRequests` — a JS `Map` from request id to request data,
  * `waitingQueue` — a JS array of request ids awaiting pairing,
  * `activeChannels` — a JS `Map` from channel name to channel data.

JS `Map`s preserve insertion order, so both maps are embedded as
insertion-ordered association lists with the exact `get` / `set` /
`delete` semantics of `Map` (with `set` updating in place when the key
exists, appending otherwise, and `delete` removing the entry).  The
queue's `indexOf` + `splice(i, 1)` is embedded as removal of the first
occurrence.  Random generation (request ids, channel names, topics,
tokens) and `Date.now()` are oracle inputs to the operations.
-/

namespace SpeakBuddies

/-- The two status strings the server ever stores
(`'waiting'` and `'paired'`). -/
inductive Status where
  | waiting
  | paired
deriving DecidableEq

/-- One entry of `connectionRequests`: the object built in the
`POST /api/request-connection` handler, with the fields that are
assigned only on pairing kept as `Option`s. -/
structure Request where
  requestId : String
  userId : String
  timestamp : Nat
  status : Status
  channelName : Option String
  topic : Option String
  token : Option String
  uid : Option Nat
deriving DecidableEq

/-- One entry of `activeChannels`, as stored at pairing time. -/
structure Channel where
  users : List String
  requests : List String
  topic : String
  startTime : Nat
  maxDuration : Nat
deriving DecidableEq

/-- The whole mutable server state. -/
structure ServerState where
  connectionRequests : List (String × Request)
  waitingQueue : List String
  activeChannels : List (String × Channel)
deriving DecidableEq

/-- The state at server start: all three stores empty. -/
def initState : ServerState := ⟨[], [], []⟩

/-! ### JS `Map` and array primitives -/

/-- `Map.prototype.get`. -/
def mapGet {α : Type} (m : List (String × α)) (k : String) : Option α :=
  match m with
  | [] => none
  | (a, v) :: rest => if a = k then some v else mapGet rest k

/-- `Map.prototype.set`: update in place if the key exists, else append. -/
def mapSet {α : Type} (m : List (String × α)) (k : String) (v : α) :
    List (String × α) :=
  match m with
  | [] => [(k, v)]
  | (a, w) :: rest => if a = k then (k, v) :: rest else (a, w) :: mapSet rest k v

/-- `Map.prototype.delete`: remove the (first) entry with the key. -/
def mapDelete {α : Type} (m : List (String × α)) (k : String) :
    List (String × α) :=
  match m with
  | [] => []
  | (a, w) :: rest => if a = k then rest else (a, w) :: mapDelete rest k

/-- The keys of an association list, in order. -/
def keys {α : Type} (m : List (String × α)) : List String := m.map Prod.fst

/-- `arr.indexOf(x)` followed by `arr.splice(i, 1)`: remove the first
occurrence of `x`, no-op when absent. -/
def removeFirst (l : List String) (x : String) : List String :=
  match l with
  | [] => []
  | y :: rest => if y = x then rest else y :: removeFirst rest x

/-! ### Responses -/

/-- JSON body of a successful `POST /api/request-connection` response. -/
structure RCResponse where
  success : Bool
  requestId : String
  paired : Bool
  token : Option String
  channelName : Option String
  topic : Option String
  uid : Option Nat
deriving DecidableEq

/-- JSON body of a `GET /api/check-pairing/:requestId` response. -/
inductive CPResponse where
  | notFound
  | pairedResp (token : Option String) (channelName : Option String)
      (topic : Option String) (uid : Option Nat)
  | waitingResp (status : Status)
deriving DecidableEq

/-- Acknowledgement body of cancel-connection / end-call. -/
structure AckResponse where
  success : Bool
deriving DecidableEq

/-! ### POST /api/request-connection -/

/-- The oracle inputs consumed by one run of the request-connection
handler: the caller-supplied body field plus the values produced by
`generateRequestId`, `generateChannelName`, `getRandomTopic`,
`generateAgoraToken` (for uids 1 and 2) and `Date.now()`. -/
structure RCInput where
  userId : Option String
  reqId : String
  chName : String
  topic : String
  token1 : String
  token2 : String
  now : Nat
deriving DecidableEq

/-- `userId || user_timestamp` — a missing or empty (falsy) string is
replaced by the generated name. -/
def resolveUserId (u : Option String) (ts : Nat) : String :=
  match u with
  | none => "user_" ++ toString ts
  | some s => if s = "" then "user_" ++ toString ts else s

/-- The request object created at the top of the handler. -/
def newReq (i : RCInput) : Request :=
  { requestId := i.reqId
    userId := resolveUserId i.userId i.now
    timestamp := i.now
    status := .waiting
    channelName := none, topic := none, token := none, uid := none }

/-- The waiting partner's entry after the in-place pairing mutation. -/
def pairedWaiting (i : RCInput) (wr : Request) : Request :=
  { wr with
      status := .paired
      channelName := some i.chName
      topic := some i.topic
      token := some i.token1
      uid := some 1 }

/-- The new request's entry after the in-place pairing mutation. -/
def pairedNew (i : RCInput) : Request :=
  { newReq i with
      status := .paired
      channelName := some i.chName
      topic := some i.topic
      token := some i.token2
      uid := some 2 }

/-- The channel object stored into `activeChannels` on pairing. -/
def newChannel (i : RCInput) (w : String) (wr : Request) : Channel :=
  { users := [wr.userId, resolveUserId i.userId i.now]
    requests := [w, i.reqId]
    topic := i.topic
    startTime := i.now
    maxDuration := 600000 }

/-- The `paired: false` response body. -/
def unpairedResp (i : RCInput) : RCResponse :=
  { success := true, requestId := i.reqId, paired := false,
    token := none, channelName := none, topic := none, uid := none }

/-- The `paired: true` response body sent to the arriving caller. -/
def pairedResp (i : RCInput) : RCResponse :=
  { success := true, requestId := i.reqId, paired := true,
    token := some i.token2, channelName := some i.chName,
    topic := some i.topic, uid := some 2 }

/-- The `POST /api/request-connection` handler: register the new
request, then if the queue is non-empty `shift()` its head, re-check
that the head is still a `'waiting'` registry entry, and either pair
(create a channel, mark both entries paired) or push the new request
onto the queue. -/
def requestConnection (i : RCInput) (s : ServerState) :
    ServerState × RCResponse :=
  let reqs1 := mapSet s.connectionRequests i.reqId (newReq i)
  match s.waitingQueue with
  | [] =>
      ({ connectionRequests := reqs1,
         waitingQueue := s.waitingQueue ++ [i.reqId],
         activeChannels := s.activeChannels }, unpairedResp i)
  | w :: rest =>
      match mapGet reqs1 w with
      | some wr =>
          if wr.status = .waiting then
            ({ connectionRequests :=
                 mapSet (mapSet reqs1 w (pairedWaiting i wr)) i.reqId (pairedNew i),
               waitingQueue := rest,
               activeChannels := mapSet s.activeChannels i.chName (newChannel i w wr) },
             pairedResp i)
          else
            ({ connectionRequests := reqs1,
               waitingQueue := rest ++ [i.reqId],
               activeChannels := s.activeChannels }, unpairedResp i)
      | none =>
          ({ connectionRequests := reqs1,
             waitingQueue := rest ++ [i.reqId],
             activeChannels := s.activeChannels }, unpairedResp i)

/-! ### GET /api/check-pairing/:requestId -/

/-- The check-pairing handler: 404 on an unknown id, the pairing data
when `status === 'paired'`, else `paired: false` with the status. -/
def checkPairing (reqId : String) (s : ServerState) : CPResponse :=
  match mapGet s.connectionRequests reqId with
  | none => .notFound
  | some r =>
      if r.status = .paired then .pairedResp r.token r.channelName r.topic r.uid
      else .waitingResp r.status

/-! ### POST /api/cancel-connection -/

/-- Delete an id from the request map and remove its first occurrence
from the waiting queue (shared by cancellation and the sweep). -/
def deleteBoth (s : ServerState) (id : String) : ServerState :=
  { connectionRequests := mapDelete s.connectionRequests id
    waitingQueue := removeFirst s.waitingQueue id
    activeChannels := s.activeChannels }

/-- The cancel-connection handler: unconditional `Map.delete` plus
queue `splice`; always answers `success: true`. -/
def cancelConnection (reqId : String) (s : ServerState) :
    ServerState × AckResponse :=
  (deleteBoth s reqId, ⟨true⟩)

/-! ### POST /api/end-call -/

/-- The end-call handler: delete the channel when present; the
`userId` body field is only logged; always answers `success: true`. -/
def endCall (chName : String) (userId : Option String) (s : ServerState) :
    ServerState × AckResponse :=
  if (mapGet s.activeChannels chName).isSome then
    ({ s with activeChannels := mapDelete s.activeChannels chName }, ⟨true⟩)
  else (s, ⟨true⟩)

/-! ### cleanup -/

/-- `REQUEST_TIMEOUT` = 5 minutes in milliseconds. -/
def REQUEST_TIMEOUT : Nat := 300000

/-- One iteration of cleanup's first loop: evict the entry when it is
`'waiting'` and older than the timeout. -/
def cleanupReqStep (now : Nat) (s : ServerState) (e : String × Request) :
    ServerState :=
  if e.2.status = .waiting ∧ now - e.2.timestamp > REQUEST_TIMEOUT then
    deleteBoth s e.1
  else s

/-- One iteration of cleanup's second loop: when the channel has
outlived `maxDuration`, delete its associated requests and the channel. -/
def cleanupChanStep (now : Nat) (s : ServerState) (e : String × Channel) :
    ServerState :=
  if now - e.2.startTime > e.2.maxDuration then
    { connectionRequests := e.2.requests.foldl mapDelete s.connectionRequests
      waitingQueue := s.waitingQueue
      activeChannels := mapDelete s.activeChannels e.1 }
  else s

/-- The `cleanup` function: sweep expired waiting requests, then sweep
expired channels with cascading request deletion.  (Each loop only ever
deletes the entry it is visiting, so iterating the live `Map` is the
same as folding over a snapshot of its entries.) -/
def cleanup (now : Nat) (s : ServerState) : ServerState :=
  let s1 := s.connectionRequests.foldl (cleanupReqStep now) s
  s1.activeChannels.foldl (cleanupChanStep now) s1

/-! ### Reachability -/

/-- A freshly generated request id: never previously issued, hence in
none of the three stores. -/
def freshReqId (s : ServerState) (id : String) : Prop :=
  mapGet s.connectionRequests id = none ∧ id ∉ s.waitingQueue ∧
    ∀ e ∈ s.activeChannels, id ∉ e.2.requests

/-- A freshly generated channel name. -/
def freshChName (s : ServerState) (n : String) : Prop :=
  mapGet s.activeChannels n = none

/-- One mutating API operation of the server (check-pairing and the
statistics endpoint are read-only and change no state). -/
inductive Step : ServerState → ServerState → Prop where
  | step_request (i : RCInput) (s : ServerState)
      (hr : freshReqId s i.reqId) (hc : freshChName s i.chName) :
      Step s (requestConnection i s).1
  | step_cancel (reqId : String) (s : ServerState) :
      Step s (cancelConnection reqId s).1
  | step_end (chName : String) (userId : Option String) (s : ServerState) :
      Step s (endCall chName userId s).1
  | step_cleanup (now : Nat) (s : ServerState) :
      Step s (cleanup now s)

/-- States reachable from server start by any sequence of operations. -/
inductive Reachable : ServerState → Prop where
  | init : Reachable initState
  | next {s t : ServerState} : Reachable s → Step s t → Reachable t

/-! ### Invariants -/

/-- Spec invariant 1: an id is in the waiting queue iff it is a
`'waiting'` entry of the request map. -/
def WaitingIff (s : ServerState) : Prop :=
  ∀ id, id ∈ s.waitingQueue ↔
    ∃ r, mapGet s.connectionRequests id = some r ∧ r.status = .waiting

/-- Every id referenced by a stored channel is, when still registered,
a `'paired'` entry. -/
def ChanReqsPaired (s : ServerState) : Prop :=
  ∀ e ∈ s.activeChannels, ∀ id ∈ e.2.requests,
    ∀ r, mapGet s.connectionRequests id = some r → r.status = .paired

/-- Distinct stored channels reference disjoint request-id lists. -/
def ChanDisjoint (s : ServerState) : Prop :=
  s.activeChannels.Pairwise
    (fun e1 e2 => ∀ id ∈ e1.2.requests, id ∉ e2.2.requests)

/-- The inductive invariant carried through every operation. -/
def Inv (s : ServerState) : Prop :=
  WaitingIff s ∧ s.waitingQueue.Nodup ∧
    (keys s.connectionRequests).Nodup ∧ (keys s.activeChannels).Nodup ∧
    ChanReqsPaired s ∧ ChanDisjoint s

/-! ### FIFO runs -/

/-- Process a batch of pairing requests, with no other operation in
between. -/
def runReqs (l : List RCInput) (s : ServerState) : ServerState :=
  l.foldl (fun t i => (requestConnection i t).1) s

/-- The channels a batch creates when it starts from an empty queue:
consecutive arrivals pair up, a trailing odd arrival stays waiting. -/
def pairChannels : List RCInput → List (String × Channel)
  | i1 :: i2 :: rest =>
      (i2.chName, newChannel i2 i1.reqId (newReq i1)) :: pairChannels rest
  | _ => []

/-! ### Concrete scenario states -/

/-- Request A of the scenario: alice arrives first. -/
def iA : RCInput :=
  { userId := some "alice", reqId := "rA", chName := "chA", topic := "tA",
    token1 := "tokA1", token2 := "tokA2", now := 100 }

/-- Request B of the scenario: bob arrives second and pairs with alice. -/
def iB : RCInput :=
  { userId := some "bob", reqId := "rB", chName := "chB", topic := "tB",
    token1 := "tokB1", token2 := "tokB2", now := 200 }

/-- Request C: carol arrives third. -/
def iC : RCInput :=
  { userId := some "carol", reqId := "rC", chName := "chC", topic := "tC",
    token1 := "tokC1", token2 := "tokC2", now := 300 }

/-- Request D: dave arrives fourth and pairs with carol. -/
def iD : RCInput :=
  { userId := some "dave", reqId := "rD", chName := "chD", topic := "tD",
    token1 := "tokD1", token2 := "tokD2", now := 400 }

/-- State after request A. -/
def sA : ServerState := (requestConnection iA initState).1

/-- State after requests A and B (one active channel `chB`). -/
def sAB : ServerState := (requestConnection iB sA).1

/-- State after requests A, B and C. -/
def sABC : ServerState := (requestConnection iC sAB).1

/-- State after requests A, B, C and D (channels `chB` and `chD`). -/
def sABCD : ServerState := (requestConnection iD sABC).1

/-- A state whose queue head `w1` is stale (absent from the request
map) while `w2` behind it is a valid waiting candidate. -/
def c1State : ServerState :=
  { connectionRequests :=
      [("w2", { requestId := "w2", userId := "u2", timestamp := 0,
                status := .waiting, channelName := none, topic := none,
                token := none, uid := none })],
    waitingQueue := ["w1", "w2"],
    activeChannels := [] }

/-- The request that arrives at `c1State`. -/
def c1Input : RCInput :=
  { userId := some "carol", reqId := "rNew", chName := "chNew",
    topic := "tNew", token1 := "n1", token2 := "n2", now := 5 }

/-! ## Lemmas about the `Map` and array primitives -/

/-! ## Lemmas about the `Map` and array primitives -/

theorem keys_cons {α : Type} (a : String) (v : α) (m : List (String × α)) :
    keys ((a, v) :: m) = a :: keys m := rfl

theorem keys_append {α : Type} (m1 m2 : List (String × α)) :
    keys (m1 ++ m2) = keys m1 ++ keys m2 := List.map_append _ _ _

theorem mapGet_nil {α : Type} (k : String) :
    mapGet ([] : List (String × α)) k = none := rfl

theorem mapGet_cons {α : Type} (a : String) (v : α) (m : List (String × α))
    (k : String) :
    mapGet ((a, v) :: m) k = if a = k then some v else mapGet m k := rfl

theorem mapSet_nil {α : Type} (k : String) (v : α) :
    mapSet ([] : List (String × α)) k v = [(k, v)] := rfl

theorem mapSet_cons {α : Type} (a : String) (w : α) (m : List (String × α))
    (k : String) (v : α) :
    mapSet ((a, w) :: m) k v =
      if a = k then (k, v) :: m else (a, w) :: mapSet m k v := rfl

theorem mapDelete_nil {α : Type} (k : String) :
    mapDelete ([] : List (String × α)) k = [] := rfl

theorem mapDelete_cons {α : Type} (a : String) (w : α) (m : List (String × α))
    (k : String) :
    mapDelete ((a, w) :: m) k =
      if a = k then m else (a, w) :: mapDelete m k := rfl

theorem removeFirst_cons (y : String) (l : List String) (x : String) :
    removeFirst (y :: l) x = if y = x then l else y :: removeFirst l x := rfl

theorem mapGet_set_self {α : Type} (m : List (String × α)) (k : String) (v : α) :
    mapGet (mapSet m k v) k = some v := by
  induction m with
  | nil => rw [mapSet_nil, mapGet_cons, if_pos rfl]
  | cons e rest ih =>
      obtain ⟨a, w⟩ := e
      by_cases ha : a = k
      · rw [mapSet_cons, if_pos ha, mapGet_cons, if_pos rfl]
      · rw [mapSet_cons, if_neg ha, mapGet_cons, if_neg ha]
        exact ih

theorem mapGet_set_ne {α : Type} (m : List (String × α)) {k x : String} (v : α)
    (h : x ≠ k) : mapGet (mapSet m k v) x = mapGet m x := by
  have hkx : ¬k = x := fun e => h e.symm
  induction m with
  | nil => rw [mapSet_nil, mapGet_cons, if_neg hkx, mapGet_nil]
  | cons e rest ih =>
      obtain ⟨a, w⟩ := e
      by_cases ha : a = k
      · rw [mapSet_cons, if_pos ha, mapGet_cons, mapGet_cons, if_neg hkx, ha,
          if_neg hkx]
      · rw [mapSet_cons, if_neg ha, mapGet_cons, mapGet_cons]
        by_cases hax : a = x
        · rw [if_pos hax, if_pos hax]
        · rw [if_neg hax, if_neg hax]
          exact ih

theorem mapGet_delete_ne {α : Type} (m : List (String × α)) {k x : String}
    (h : x ≠ k) : mapGet (mapDelete m k) x = mapGet m x := by
  induction m with
  | nil => rfl
  | cons e rest ih =>
      obtain ⟨a, w⟩ := e
      by_cases ha : a = k
      · rw [mapDelete_cons, if_pos ha, mapGet_cons,
          if_neg (fun e : a = x => h (e.symm.trans ha))]
      · rw [mapDelete_cons, if_neg ha, mapGet_cons, mapGet_cons]
        by_cases hax : a = x
        · rw [if_pos hax, if_pos hax]
        · rw [if_neg hax, if_neg hax]
          exact ih

theorem mapGet_eq_none_iff {α : Type} (m : List (String × α)) (k : String) :
    mapGet m k = none ↔ k ∉ keys m := by
  induction m with
  | nil => simp [mapGet_nil, keys]
  | cons e rest ih =>
      obtain ⟨a, w⟩ := e
      by_cases ha : a = k
      · subst ha
        rw [mapGet_cons, if_pos rfl, keys_cons]
        simp
      · rw [mapGet_cons, if_neg ha, keys_cons, ih]
        constructor
        · intro h hm
          rcases List.mem_cons.mp hm with h1 | h1
          · exact ha h1.symm
          · exact h h1
        · intro h hm
          exact h (List.mem_cons_of_mem _ hm)

theorem mem_of_mapGet_eq_some {α : Type} {m : List (String × α)}
    {k : String} {v : α} (h : mapGet m k = some v) : (k, v) ∈ m := by
  induction m with
  | nil => exact Option.noConfusion h
  | cons e rest ih =>
      obtain ⟨a, w⟩ := e
      by_cases ha : a = k
      · subst ha
        rw [mapGet_cons, if_pos rfl] at h
        rw [← Option.some.inj h]
        exact List.mem_cons_self _ _
      · rw [mapGet_cons, if_neg ha] at h
        exact List.mem_cons_of_mem _ (ih h)

theorem mem_keys_of_mem {α : Type} {m : List (String × α)}
    {k : String} {v : α} (h : (k, v) ∈ m) : k ∈ keys m :=
  List.mem_map_of_mem Prod.fst h

theorem mapGet_of_mem {α : Type} {m : List (String × α)} {k : String} {v : α}
    (hnd : (keys m).Nodup) (h : (k, v) ∈ m) : mapGet m k = some v := by
  induction m with
  | nil => exact absurd h (List.not_mem_nil _)
  | cons e rest ih =>
      obtain ⟨a, w⟩ := e
      rw [keys_cons] at hnd
      rcases List.mem_cons.mp h with h1 | h1
      · have h1a : k = a := congrArg Prod.fst h1
        have h1b : v = w := congrArg Prod.snd h1
        subst h1a; subst h1b
        rw [mapGet_cons, if_pos rfl]
      · have hak : a ≠ k := by
          intro hak; subst hak
          exact (List.nodup_cons.mp hnd).1 (mem_keys_of_mem h1)
        rw [mapGet_cons, if_neg hak]
        exact ih (List.nodup_cons.mp hnd).2 h1

theorem mapGet_delete_self {α : Type} {m : List (String × α)} {k : String}
    (hnd : (keys m).Nodup) : mapGet (mapDelete m k) k = none := by
  induction m with
  | nil => rfl
  | cons e rest ih =>
      obtain ⟨a, w⟩ := e
      rw [keys_cons] at hnd
      by_cases ha : a = k
      · subst ha
        rw [mapDelete_cons, if_pos rfl]
        exact (mapGet_eq_none_iff rest a).mpr (List.nodup_cons.mp hnd).1
      · rw [mapDelete_cons, if_neg ha, mapGet_cons, if_neg ha]
        exact ih (List.nodup_cons.mp hnd).2

theorem mapDelete_sublist {α : Type} (m : List (String × α)) (k : String) :
    (mapDelete m k).Sublist m := by
  induction m with
  | nil => exact List.Sublist.refl _
  | cons e rest ih =>
      obtain ⟨a, w⟩ := e
      by_cases ha : a = k
      · rw [mapDelete_cons, if_pos ha]
        exact List.sublist_cons_self _ _
      · rw [mapDelete_cons, if_neg ha]
        exact List.Sublist.cons₂ _ ih

theorem keys_delete_sublist {α : Type} (m : List (String × α)) (k : String) :
    (keys (mapDelete m k)).Sublist (keys m) :=
  List.Sublist.map Prod.fst (mapDelete_sublist m k)

theorem nodup_keys_delete {α : Type} {m : List (String × α)} (k : String)
    (hnd : (keys m).Nodup) : (keys (mapDelete m k)).Nodup :=
  (keys_delete_sublist m k).nodup hnd

theorem mapGet_delete_none {α : Type} {m : List (String × α)} {x : String}
    (k : String) (h : mapGet m x = none) : mapGet (mapDelete m k) x = none := by
  rw [mapGet_eq_none_iff] at h ⊢
  exact fun hm => h ((keys_delete_sublist m k).mem hm)

theorem mapGet_delete_mono {α : Type} {m : List (String × α)} {k x : String}
    {v : α} (hnd : (keys m).Nodup)
    (h : mapGet (mapDelete m k) x = some v) : mapGet m x = some v := by
  by_cases hx : x = k
  · subst hx
    rw [mapGet_delete_self hnd] at h
    exact Option.noConfusion h
  · rwa [mapGet_delete_ne m hx] at h

theorem mapDelete_of_not_mem {α : Type} {m : List (String × α)} {k : String}
    (h : k ∉ keys m) : mapDelete m k = m := by
  induction m with
  | nil => rfl
  | cons e rest ih =>
      obtain ⟨a, w⟩ := e
      rw [keys_cons] at h
      have hak : a ≠ k := fun hak => h (hak ▸ List.mem_cons_self _ _)
      rw [mapDelete_cons, if_neg hak,
        ih (fun hm => h (List.mem_cons_of_mem _ hm))]

theorem keys_set_of_mem {α : Type} {m : List (String × α)} {k : String} (v : α)
    (h : k ∈ keys m) : keys (mapSet m k v) = keys m := by
  induction m with
  | nil => exact absurd h (List.not_mem_nil _)
  | cons e rest ih =>
      obtain ⟨a, w⟩ := e
      by_cases ha : a = k
      · subst ha
        rw [mapSet_cons, if_pos rfl, keys_cons, keys_cons]
      · rw [keys_cons] at h
        rcases List.mem_cons.mp h with h1 | h1
        · exact absurd h1.symm ha
        · rw [mapSet_cons, if_neg ha, keys_cons, keys_cons, ih h1]

theorem keys_set_of_not_mem {α : Type} {m : List (String × α)} {k : String}
    (v : α) (h : k ∉ keys m) : keys (mapSet m k v) = keys m ++ [k] := by
  induction m with
  | nil => rfl
  | cons e rest ih =>
      obtain ⟨a, w⟩ := e
      rw [keys_cons] at h
      have hak : a ≠ k := fun hak => h (hak ▸ List.mem_cons_self _ _)
      rw [mapSet_cons, if_neg hak, keys_cons, keys_cons,
        ih (fun hm => h (List.mem_cons_of_mem _ hm)), List.cons_append]

theorem nodup_keys_set {α : Type} {m : List (String × α)} (k : String) (v : α)
    (hnd : (keys m).Nodup) : (keys (mapSet m k v)).Nodup := by
  by_cases h : k ∈ keys m
  · rwa [keys_set_of_mem v h]
  · rw [keys_set_of_not_mem v h]
    exact hnd.append (List.nodup_singleton k) (List.disjoint_singleton.mpr h)

theorem mapSet_of_get_none {α : Type} {m : List (String × α)} {k : String}
    (v : α) (h : mapGet m k = none) : mapSet m k v = m ++ [(k, v)] := by
  induction m with
  | nil => rfl
  | cons e rest ih =>
      obtain ⟨a, w⟩ := e
      by_cases ha : a = k
      · subst ha
        rw [mapGet_cons, if_pos rfl] at h
        exact Option.noConfusion h
      · rw [mapGet_cons, if_neg ha] at h
        rw [mapSet_cons, if_neg ha, ih h, List.cons_append]

theorem mapGet_append_left {α : Type} {m1 : List (String × α)}
    (m2 : List (String × α)) {k : String} {v : α} (h : mapGet m1 k = some v) :
    mapGet (m1 ++ m2) k = some v := by
  induction m1 with
  | nil => exact Option.noConfusion h
  | cons e rest ih =>
      obtain ⟨a, w⟩ := e
      by_cases ha : a = k
      · rw [mapGet_cons, if_pos ha] at h
        rw [List.cons_append, mapGet_cons, if_pos ha]
        exact h
      · rw [mapGet_cons, if_neg ha] at h
        rw [List.cons_append, mapGet_cons, if_neg ha]
        exact ih h

theorem mapGet_append_right {α : Type} {m1 : List (String × α)}
    (m2 : List (String × α)) {k : String} (h : mapGet m1 k = none) :
    mapGet (m1 ++ m2) k = mapGet m2 k := by
  induction m1 with
  | nil => rfl
  | cons e rest ih =>
      obtain ⟨a, w⟩ := e
      by_cases ha : a = k
      · rw [mapGet_cons, if_pos ha] at h
        exact Option.noConfusion h
      · rw [mapGet_cons, if_neg ha] at h
        rw [List.cons_append, mapGet_cons, if_neg ha]
        exact ih h

theorem mapGet_foldl_delete_none {α : Type} (L : List String)
    {m : List (String × α)} {x : String} (h : mapGet m x = none) :
    mapGet (L.foldl mapDelete m) x = none := by
  induction L generalizing m with
  | nil => exact h
  | cons a t ih => exact ih (mapGet_delete_none a h)

theorem nodup_keys_foldl_delete {α : Type} (L : List String)
    {m : List (String × α)} (hnd : (keys m).Nodup) :
    (keys (L.foldl mapDelete m)).Nodup := by
  induction L generalizing m with
  | nil => exact hnd
  | cons a t ih => exact ih (nodup_keys_delete a hnd)

theorem mapGet_foldl_delete_mem {α : Type} {L : List String}
    {m : List (String × α)} {x : String} (hnd : (keys m).Nodup) (hx : x ∈ L) :
    mapGet (L.foldl mapDelete m) x = none := by
  induction L generalizing m with
  | nil => exact absurd hx (List.not_mem_nil _)
  | cons a t ih =>
      rcases List.mem_cons.mp hx with h1 | h1
      · subst h1
        exact mapGet_foldl_delete_none t (mapGet_delete_self hnd)
      · exact ih (nodup_keys_delete a hnd) h1

theorem mapGet_foldl_delete_mono {α : Type} {L : List String}
    {m : List (String × α)} {x : String} {v : α} (hnd : (keys m).Nodup)
    (h : mapGet (L.foldl mapDelete m) x = some v) : mapGet m x = some v := by
  induction L generalizing m with
  | nil => exact h
  | cons a t ih =>
      exact mapGet_delete_mono hnd (ih (nodup_keys_delete a hnd) h)

theorem removeFirst_sublist (l : List String) (x : String) :
    (removeFirst l x).Sublist l := by
  induction l with
  | nil => exact List.Sublist.refl _
  | cons y rest ih =>
      by_cases hy : y = x
      · rw [removeFirst_cons, if_pos hy]
        exact List.sublist_cons_self _ _
      · rw [removeFirst_cons, if_neg hy]
        exact List.Sublist.cons₂ _ ih

theorem mem_of_mem_removeFirst {l : List String} {x y : String}
    (h : y ∈ removeFirst l x) : y ∈ l :=
  (removeFirst_sublist l x).mem h

theorem mem_removeFirst_of_ne {l : List String} {x y : String} (h : y ≠ x) :
    y ∈ removeFirst l x ↔ y ∈ l := by
  induction l with
  | nil => exact Iff.rfl
  | cons z rest ih =>
      by_cases hz : z = x
      · rw [removeFirst_cons, if_pos hz]
        constructor
        · exact fun hm => List.mem_cons_of_mem _ hm
        · intro hm
          rcases List.mem_cons.mp hm with h1 | h1
          · exact absurd (h1.trans hz) h
          · exact h1
      · rw [removeFirst_cons, if_neg hz, List.mem_cons, List.mem_cons, ih]

theorem not_mem_removeFirst {l : List String} {x : String} (hnd : l.Nodup) :
    x ∉ removeFirst l x := by
  induction l with
  | nil => exact List.not_mem_nil _
  | cons y rest ih =>
      by_cases hy : y = x
      · subst hy
        rw [removeFirst_cons, if_pos rfl]
        exact (List.nodup_cons.mp hnd).1
      · rw [removeFirst_cons, if_neg hy]
        intro hm
        rcases List.mem_cons.mp hm with h1 | h1
        · exact hy h1.symm
        · exact ih (List.nodup_cons.mp hnd).2 h1

theorem removeFirst_of_not_mem {l : List String} {x : String} (h : x ∉ l) :
    removeFirst l x = l := by
  induction l with
  | nil => rfl
  | cons y rest ih =>
      have hy : y ≠ x := fun hy => h (hy ▸ List.mem_cons_self _ _)
      rw [removeFirst_cons, if_neg hy,
        ih (fun hm => h (List.mem_cons_of_mem _ hm))]

theorem nodup_removeFirst {l : List String} (x : String) (hnd : l.Nodup) :
    (removeFirst l x).Nodup :=
  (removeFirst_sublist l x).nodup hnd

theorem pairwise_mem_or {α : Type} {R : α → α → Prop} {l : List α}
    (hp : l.Pairwise R) {a b : α} (ha : a ∈ l) (hb : b ∈ l) (hne : a ≠ b) :
    R a b ∨ R b a := by
  induction l with
  | nil => exact absurd ha (List.not_mem_nil _)
  | cons c t ih =>
      rcases List.pairwise_cons.mp hp with ⟨hc, ht⟩
      rcases List.mem_cons.mp ha with h1 | h1
      · rcases List.mem_cons.mp hb with h2 | h2
        · exact absurd (h1.trans h2.symm) hne
        · exact Or.inl (h1 ▸ hc b h2)
      · rcases List.mem_cons.mp hb with h2 | h2
        · exact Or.inr (h2 ▸ hc a h1)
        · exact ih ht h1 h2

/-! ## Branch equations of the request-connection handler -/

theorem requestConnection_empty (i : RCInput) (s : ServerState)
    (h : s.waitingQueue = []) :
    requestConnection i s =
      ({ connectionRequests := mapSet s.connectionRequests i.reqId (newReq i),
         waitingQueue := [i.reqId],
         activeChannels := s.activeChannels }, unpairedResp i) := by
  simp [requestConnection, h]

theorem requestConnection_paired (i : RCInput) (s : ServerState) {w : String}
    {rest : List String} {wr : Request} (hq : s.waitingQueue = w :: rest)
    (hw : mapGet (mapSet s.connectionRequests i.reqId (newReq i)) w = some wr)
    (hst : wr.status = .waiting) :
    requestConnection i s =
      ({ connectionRequests :=
           mapSet (mapSet (mapSet s.connectionRequests i.reqId (newReq i)) w
             (pairedWaiting i wr)) i.reqId (pairedNew i),
         waitingQueue := rest,
         activeChannels := mapSet s.activeChannels i.chName (newChannel i w wr) },
       pairedResp i) := by
  simp [requestConnection, hq, hw, hst]

theorem requestConnection_stale_absent (i : RCInput) (s : ServerState)
    {w : String} {rest : List String} (hq : s.waitingQueue = w :: rest)
    (hw : mapGet (mapSet s.connectionRequests i.reqId (newReq i)) w = none) :
    requestConnection i s =
      ({ connectionRequests := mapSet s.connectionRequests i.reqId (newReq i),
         waitingQueue := rest ++ [i.reqId],
         activeChannels := s.activeChannels }, unpairedResp i) := by
  simp [requestConnection, hq, hw]

theorem requestConnection_stale_paired (i : RCInput) (s : ServerState)
    {w : String} {rest : List String} {wr : Request}
    (hq : s.waitingQueue = w :: rest)
    (hw : mapGet (mapSet s.connectionRequests i.reqId (newReq i)) w = some wr)
    (hst : ¬wr.status = .waiting) :
    requestConnection i s =
      ({ connectionRequests := mapSet s.connectionRequests i.reqId (newReq i),
         waitingQueue := rest ++ [i.reqId],
         activeChannels := s.activeChannels }, unpairedResp i) := by
  simp [requestConnection, hq, hw, hst]

theorem requestConnection_fst_empty (i : RCInput) (s : ServerState)
    (h : s.waitingQueue = []) :
    (requestConnection i s).1 =
      ⟨mapSet s.connectionRequests i.reqId (newReq i), [i.reqId],
        s.activeChannels⟩ := by
  rw [requestConnection_empty i s h]

theorem requestConnection_snd_empty (i : RCInput) (s : ServerState)
    (h : s.waitingQueue = []) :
    (requestConnection i s).2 = unpairedResp i := by
  rw [requestConnection_empty i s h]

theorem requestConnection_fst_paired (i : RCInput) (s : ServerState)
    {w : String} {rest : List String} {wr : Request}
    (hq : s.waitingQueue = w :: rest)
    (hw : mapGet (mapSet s.connectionRequests i.reqId (newReq i)) w = some wr)
    (hst : wr.status = .waiting) :
    (requestConnection i s).1 =
      ⟨mapSet (mapSet (mapSet s.connectionRequests i.reqId (newReq i)) w
          (pairedWaiting i wr)) i.reqId (pairedNew i),
        rest,
        mapSet s.activeChannels i.chName (newChannel i w wr)⟩ := by
  rw [requestConnection_paired i s hq hw hst]

theorem requestConnection_snd_paired (i : RCInput) (s : ServerState)
    {w : String} {rest : List String} {wr : Request}
    (hq : s.waitingQueue = w :: rest)
    (hw : mapGet (mapSet s.connectionRequests i.reqId (newReq i)) w = some wr)
    (hst : wr.status = .waiting) :
    (requestConnection i s).2 = pairedResp i := by
  rw [requestConnection_paired i s hq hw hst]

theorem requestConnection_fst_stale_absent (i : RCInput) (s : ServerState)
    {w : String} {rest : List String} (hq : s.waitingQueue = w :: rest)
    (hw : mapGet (mapSet s.connectionRequests i.reqId (newReq i)) w = none) :
    (requestConnection i s).1 =
      ⟨mapSet s.connectionRequests i.reqId (newReq i), rest ++ [i.reqId],
        s.activeChannels⟩ := by
  rw [requestConnection_stale_absent i s hq hw]

theorem requestConnection_fst_stale_paired (i : RCInput) (s : ServerState)
    {w : String} {rest : List String} {wr : Request}
    (hq : s.waitingQueue = w :: rest)
    (hw : mapGet (mapSet s.connectionRequests i.reqId (newReq i)) w = some wr)
    (hst : ¬wr.status = .waiting) :
    (requestConnection i s).1 =
      ⟨mapSet s.connectionRequests i.reqId (newReq i), rest ++ [i.reqId],
        s.activeChannels⟩ := by
  rw [requestConnection_stale_paired i s hq hw hst]

/-! ## The invariant is preserved by every operation -/

theorem inv_mk_iff (R : List (String × Request)) (Q : List String)
    (C : List (String × Channel)) :
    Inv ⟨R, Q, C⟩ ↔
      ((∀ id, id ∈ Q ↔ ∃ r, mapGet R id = some r ∧ r.status = .waiting) ∧
       Q.Nodup ∧ (keys R).Nodup ∧ (keys C).Nodup ∧
       (∀ e ∈ C, ∀ id ∈ e.2.requests, ∀ r, mapGet R id = some r →
         r.status = .paired) ∧
       C.Pairwise (fun e1 e2 => ∀ id ∈ e1.2.requests, id ∉ e2.2.requests)) :=
  Iff.rfl

theorem inv_deleteBoth {s : ServerState} (id : String) (h : Inv s) :
    Inv (deleteBoth s id) := by
  obtain ⟨hIff, hQnd, hRnd, hCnd, hCP, hCD⟩ := h
  refine ⟨?_, ?_, ?_, ?_, ?_, ?_⟩
  · intro x
    simp only [deleteBoth]
    by_cases hx : x = id
    · subst hx
      constructor
      · intro hm
        exact absurd hm (not_mem_removeFirst hQnd)
      · rintro ⟨r, hr, -⟩
        rw [mapGet_delete_self hRnd] at hr
        exact Option.noConfusion hr
    · rw [mem_removeFirst_of_ne hx, mapGet_delete_ne _ hx]
      exact hIff x
  · exact nodup_removeFirst _ hQnd
  · exact nodup_keys_delete _ hRnd
  · exact hCnd
  · intro e he id2 hid r hr
    exact hCP e he id2 hid r (mapGet_delete_mono hRnd hr)
  · exact hCD

theorem inv_cancel {s : ServerState} (id : String) (h : Inv s) :
    Inv (cancelConnection id s).1 :=
  inv_deleteBoth id h

theorem inv_endCall {s : ServerState} (ch : String) (u : Option String)
    (h : Inv s) : Inv (endCall ch u s).1 := by
  obtain ⟨hIff, hQnd, hRnd, hCnd, hCP, hCD⟩ := h
  by_cases hc : (mapGet s.activeChannels ch).isSome
  · rw [endCall, if_pos hc]
    refine ⟨hIff, hQnd, hRnd, nodup_keys_delete _ hCnd, ?_, ?_⟩
    · intro e he id2 hid r hr
      exact hCP e ((mapDelete_sublist _ _).mem he) id2 hid r hr
    · exact hCD.sublist (mapDelete_sublist _ _)
  · rw [endCall, if_neg hc]
    exact ⟨hIff, hQnd, hRnd, hCnd, hCP, hCD⟩

theorem inv_request {s : ServerState} (i : RCInput) (hr : freshReqId s i.reqId)
    (hc : freshChName s i.chName) (h : Inv s) :
    Inv (requestConnection i s).1 := by
  obtain ⟨hIff, hQnd, hRnd, hCnd, hCP, hCD⟩ := h
  obtain ⟨hfR, hfQ, hfC⟩ := hr
  cases hq : s.waitingQueue with
  | nil =>
      rw [requestConnection_fst_empty i s hq, inv_mk_iff]
      refine ⟨?_, List.nodup_singleton _, nodup_keys_set _ _ hRnd, hCnd, ?_, hCD⟩
      · intro x
        by_cases hx : x = i.reqId
        · subst hx
          constructor
          · intro _
            exact ⟨newReq i, mapGet_set_self _ _ _, rfl⟩
          · intro _
            exact List.mem_cons_self _ _
        · rw [mapGet_set_ne _ _ hx]
          constructor
          · intro hm
            exact absurd (List.mem_singleton.mp hm) hx
          · intro hex
            have hmq := (hIff x).mpr hex
            rw [hq] at hmq
            exact absurd hmq (List.not_mem_nil x)
      · intro e he id2 hid r hgr
        have hne : id2 ≠ i.reqId := fun heq => hfC e he (heq ▸ hid)
        rw [mapGet_set_ne _ _ hne] at hgr
        exact hCP e he id2 hid r hgr
  | cons w rest =>
      have hwq : w ∈ s.waitingQueue := hq ▸ List.mem_cons_self w rest
      obtain ⟨wr, hwget, hwst⟩ := (hIff w).mp hwq
      have hwne : w ≠ i.reqId := fun heq => hfQ (heq ▸ hwq)
      have hw1 : mapGet (mapSet s.connectionRequests i.reqId (newReq i)) w =
          some wr := by
        rw [mapGet_set_ne _ _ hwne]
        exact hwget
      have hQnd2 : (w :: rest).Nodup := hq ▸ hQnd
      have hwrest : w ∉ rest := (List.nodup_cons.mp hQnd2).1
      rw [requestConnection_fst_paired i s hq hw1 hwst, inv_mk_iff]
      refine ⟨?_, (List.nodup_cons.mp hQnd2).2, ?_, nodup_keys_set _ _ hCnd,
        ?_, ?_⟩
      · intro x
        by_cases hx : x = i.reqId
        · subst hx
          constructor
          · intro hm
            exact absurd (hq ▸ List.mem_cons_of_mem w hm) hfQ
          · rintro ⟨r, hgr, hst⟩
            rw [mapGet_set_self] at hgr
            rw [← Option.some.inj hgr,
              show (pairedNew i).status = Status.paired from rfl] at hst
            exact Status.noConfusion hst
        · by_cases hxw : x = w
          · subst hxw
            constructor
            · intro hm
              exact absurd hm hwrest
            · rintro ⟨r, hgr, hst⟩
              rw [mapGet_set_ne _ _ hwne, mapGet_set_self] at hgr
              rw [← Option.some.inj hgr,
                show (pairedWaiting i wr).status = Status.paired from rfl] at hst
              exact Status.noConfusion hst
          · rw [mapGet_set_ne _ _ hx, mapGet_set_ne _ _ hxw,
              mapGet_set_ne _ _ hx]
            constructor
            · intro hm
              exact (hIff x).mp (hq ▸ List.mem_cons_of_mem w hm)
            · intro hex
              have hmq := (hIff x).mpr hex
              rw [hq] at hmq
              exact (List.mem_cons.mp hmq).resolve_left hxw
      · exact nodup_keys_set _ _ (nodup_keys_set _ _ (nodup_keys_set _ _ hRnd))
      · rw [mapSet_of_get_none _ hc]
        intro e he id2 hid r hgr
        rcases List.mem_append.mp he with he1 | he1
        · have hidw : id2 ≠ w := by
            intro heq
            subst heq
            have hp := hCP e he1 id2 hid wr hwget
            rw [hwst] at hp
            exact Status.noConfusion hp
          have hidr : id2 ≠ i.reqId := fun heq => hfC e he1 (heq ▸ hid)
          rw [mapGet_set_ne _ _ hidr, mapGet_set_ne _ _ hidw,
            mapGet_set_ne _ _ hidr] at hgr
          exact hCP e he1 id2 hid r hgr
        · rw [List.mem_singleton.mp he1] at hid
          have hid2 : id2 ∈ [w, i.reqId] := hid
          rcases List.mem_cons.mp hid2 with h1 | h1
          · subst h1
            rw [mapGet_set_ne _ _ hwne, mapGet_set_self] at hgr
            rw [← Option.some.inj hgr]
            rfl
          · rw [List.mem_singleton.mp h1] at hgr
            rw [mapGet_set_self] at hgr
            rw [← Option.some.inj hgr]
            rfl
      · rw [mapSet_of_get_none _ hc]
        rw [List.pairwise_append]
        refine ⟨hCD, List.pairwise_singleton _ _, ?_⟩
        intro e he e2 he2 id2 hid
        rw [List.mem_singleton.mp he2]
        intro hmem
        have hmem2 : id2 ∈ [w, i.reqId] := hmem
        rcases List.mem_cons.mp hmem2 with h1 | h1
        · subst h1
          have hp := hCP e he id2 hid wr hwget
          rw [hwst] at hp
          exact Status.noConfusion hp
        · exact hfC e he (List.mem_singleton.mp h1 ▸ hid)

theorem cleanup_eq (now : Nat) (s : ServerState) :
    cleanup now s =
      (s.connectionRequests.foldl (cleanupReqStep now) s).activeChannels.foldl
        (cleanupChanStep now)
        (s.connectionRequests.foldl (cleanupReqStep now) s) := rfl

theorem cleanupReqStep_channels (now : Nat) (s : ServerState)
    (e : String × Request) :
    (cleanupReqStep now s e).activeChannels = s.activeChannels := by
  unfold cleanupReqStep
  split
  · rfl
  · rfl

theorem foldl_cleanupReqStep_channels (now : Nat) (l : List (String × Request))
    (s : ServerState) :
    (l.foldl (cleanupReqStep now) s).activeChannels = s.activeChannels := by
  induction l generalizing s with
  | nil => rfl
  | cons e t ih => rw [List.foldl_cons, ih, cleanupReqStep_channels]

theorem cleanupChanStep_queue (now : Nat) (s : ServerState)
    (e : String × Channel) :
    (cleanupChanStep now s e).waitingQueue = s.waitingQueue := by
  unfold cleanupChanStep
  split
  · rfl
  · rfl

theorem foldl_cleanupChanStep_queue (now : Nat) (l : List (String × Channel))
    (s : ServerState) :
    (l.foldl (cleanupChanStep now) s).waitingQueue = s.waitingQueue := by
  induction l generalizing s with
  | nil => rfl
  | cons e t ih => rw [List.foldl_cons, ih, cleanupChanStep_queue]

theorem inv_cleanupReqStep {s : ServerState} (now : Nat) (e : String × Request)
    (h : Inv s) : Inv (cleanupReqStep now s e) := by
  unfold cleanupReqStep
  split
  · exact inv_deleteBoth _ h
  · exact h

theorem inv_foldl_cleanupReqStep (now : Nat) (l : List (String × Request))
    {s : ServerState} (h : Inv s) : Inv (l.foldl (cleanupReqStep now) s) := by
  induction l generalizing s with
  | nil => exact h
  | cons e t ih => exact ih (inv_cleanupReqStep now e h)

theorem waitingIff_foldl_delete (L : List String)
    {R : List (String × Request)} {Q : List String} (hRnd : (keys R).Nodup)
    (hIff : ∀ x, x ∈ Q ↔ ∃ r, mapGet R x = some r ∧ r.status = .waiting)
    (hL : ∀ id ∈ L, ∀ r, mapGet R id = some r → r.status = .paired) :
    ∀ x, x ∈ Q ↔
      ∃ r, mapGet (L.foldl mapDelete R) x = some r ∧ r.status = .waiting := by
  induction L generalizing R with
  | nil => exact hIff
  | cons a tl ih =>
      rw [List.foldl_cons]
      refine ih (nodup_keys_delete _ hRnd) ?_ ?_
      · intro x
        by_cases hx : x = a
        · subst hx
          constructor
          · intro hm
            obtain ⟨r, hgr, hst⟩ := (hIff x).mp hm
            have hp := hL x (List.mem_cons_self _ _) r hgr
            rw [hst] at hp
            exact absurd hp (fun hp2 => Status.noConfusion hp2)
          · rintro ⟨r, hgr, -⟩
            rw [mapGet_delete_self hRnd] at hgr
            exact Option.noConfusion hgr
        · rw [mapGet_delete_ne _ hx]
          exact hIff x
      · intro id hid r hgr
        exact hL id (List.mem_cons_of_mem _ hid) r
          (mapGet_delete_mono hRnd hgr)

theorem inv_cleanupChanStep {s1 t : ServerState} (now : Nat)
    (e : String × Channel) (he : e ∈ s1.activeChannels)
    (hCP1 : ChanReqsPaired s1) (h : Inv t)
    (hshr : ∀ id r, mapGet t.connectionRequests id = some r →
      mapGet s1.connectionRequests id = some r) :
    Inv (cleanupChanStep now t e) ∧
      (∀ id r, mapGet (cleanupChanStep now t e).connectionRequests id = some r →
        mapGet s1.connectionRequests id = some r) := by
  obtain ⟨hIff, hQnd, hRnd, hCnd, hCP, hCD⟩ := h
  unfold cleanupChanStep
  split
  · have hpd : ∀ id ∈ e.2.requests, ∀ r,
        mapGet t.connectionRequests id = some r → r.status = .paired :=
      fun id hid r hgr => hCP1 e he id hid r (hshr id r hgr)
    refine ⟨⟨?_, hQnd, nodup_keys_foldl_delete _ hRnd, nodup_keys_delete _ hCnd,
      ?_, hCD.sublist (mapDelete_sublist _ _)⟩, ?_⟩
    · exact waitingIff_foldl_delete _ hRnd hIff hpd
    · intro e2 he2 id hid r hgr
      exact hCP e2 ((mapDelete_sublist _ _).mem he2) id hid r
        (mapGet_foldl_delete_mono hRnd hgr)
    · intro id r hgr
      exact hshr id r (mapGet_foldl_delete_mono hRnd hgr)
  · exact ⟨⟨hIff, hQnd, hRnd, hCnd, hCP, hCD⟩, hshr⟩

theorem inv_foldl_cleanupChanStep (now : Nat) (l : List (String × Channel))
    {s1 t : ServerState} (hsub : ∀ e ∈ l, e ∈ s1.activeChannels)
    (hCP1 : ChanReqsPaired s1) (h : Inv t)
    (hshr : ∀ id r, mapGet t.connectionRequests id = some r →
      mapGet s1.connectionRequests id = some r) :
    Inv (l.foldl (cleanupChanStep now) t) := by
  induction l generalizing t with
  | nil => exact h
  | cons e tl ih =>
      rw [List.foldl_cons]
      obtain ⟨h2, hshr2⟩ :=
        inv_cleanupChanStep now e (hsub e (List.mem_cons_self _ _)) hCP1 h hshr
      exact ih (fun e2 he2 => hsub e2 (List.mem_cons_of_mem _ he2)) h2 hshr2

theorem inv_cleanup {s : ServerState} (now : Nat) (h : Inv s) :
    Inv (cleanup now s) := by
  rw [cleanup_eq]
  have h1 : Inv (s.connectionRequests.foldl (cleanupReqStep now) s) :=
    inv_foldl_cleanupReqStep now _ h
  exact inv_foldl_cleanupChanStep now _ (fun e he => he) h1.2.2.2.2.1 h1
    (fun id r hgr => hgr)

theorem inv_init : Inv initState := by
  rw [show initState = ⟨[], [], []⟩ from rfl, inv_mk_iff]
  refine ⟨fun x => ?_, List.nodup_nil, List.nodup_nil, List.nodup_nil, ?_,
    List.Pairwise.nil⟩
  · simp [mapGet_nil]
  · intro e he
    exact absurd he (List.not_mem_nil _)

theorem inv_step {s t : ServerState} (h : Inv s) (hst : Step s t) : Inv t := by
  cases hst with
  | step_request i s hr hc => exact inv_request i hr hc h
  | step_cancel reqId s => exact inv_cancel reqId h
  | step_end chName userId s => exact inv_endCall chName userId h
  | step_cleanup now s => exact inv_cleanup now h

theorem inv_reachable {s : ServerState} (h : Reachable s) : Inv s := by
  induction h with
  | init => exact inv_init
  | next _ hstep ih => exact inv_step ih hstep

/-! ## Component equations of the operations -/

theorem requestConnection_reqs_empty (i : RCInput) (s : ServerState)
    (hq : s.waitingQueue = []) :
    (requestConnection i s).1.connectionRequests =
      mapSet s.connectionRequests i.reqId (newReq i) := by
  rw [requestConnection_fst_empty i s hq]

theorem requestConnection_reqs_paired (i : RCInput) (s : ServerState)
    {w : String} {rest : List String} {wr : Request}
    (hq : s.waitingQueue = w :: rest)
    (hw : mapGet (mapSet s.connectionRequests i.reqId (newReq i)) w = some wr)
    (hst : wr.status = .waiting) :
    (requestConnection i s).1.connectionRequests =
      mapSet (mapSet (mapSet s.connectionRequests i.reqId (newReq i)) w
        (pairedWaiting i wr)) i.reqId (pairedNew i) := by
  rw [requestConnection_fst_paired i s hq hw hst]

theorem cancel_fst (id : String) (s : ServerState) :
    (cancelConnection id s).1 = deleteBoth s id := rfl

theorem cancel_reqs (id : String) (s : ServerState) :
    (cancelConnection id s).1.connectionRequests =
      mapDelete s.connectionRequests id := rfl

theorem endCall_reqs (ch : String) (u : Option String) (s : ServerState) :
    (endCall ch u s).1.connectionRequests = s.connectionRequests := by
  unfold endCall
  split
  · rfl
  · rfl

theorem endCall_queue (ch : String) (u : Option String) (s : ServerState) :
    (endCall ch u s).1.waitingQueue = s.waitingQueue := by
  unfold endCall
  split
  · rfl
  · rfl

theorem endCall_fst_present {ch : String} (u : Option String) {s : ServerState}
    (h : (mapGet s.activeChannels ch).isSome = true) :
    (endCall ch u s).1 =
      ⟨s.connectionRequests, s.waitingQueue, mapDelete s.activeChannels ch⟩ := by
  unfold endCall
  rw [if_pos h]

theorem endCall_fst_absent {ch : String} (u : Option String) {s : ServerState}
    (h : ¬(mapGet s.activeChannels ch).isSome = true) :
    (endCall ch u s).1 = s := by
  unfold endCall
  rw [if_neg h]

theorem endCall_snd (ch : String) (u : Option String) (s : ServerState) :
    (endCall ch u s).2 = ⟨true⟩ := by
  unfold endCall
  split
  · rfl
  · rfl

/-! ## The request map only shrinks across a sweep -/

theorem foldl_cleanupReqStep_reqs_mono (now : Nat) (l : List (String × Request))
    {s : ServerState} (hInv : Inv s) {id : String} {r : Request}
    (h : mapGet (l.foldl (cleanupReqStep now) s).connectionRequests id = some r) :
    mapGet s.connectionRequests id = some r := by
  induction l generalizing s with
  | nil => exact h
  | cons e tl ih =>
      rw [List.foldl_cons] at h
      have h2 := ih (inv_cleanupReqStep now e hInv) h
      revert h2
      unfold cleanupReqStep
      split
      · intro h2
        exact mapGet_delete_mono hInv.2.2.1 h2
      · intro h2
        exact h2

theorem foldl_cleanupChanStep_reqs_mono (now : Nat)
    (l : List (String × Channel)) {t : ServerState}
    (hnd : (keys t.connectionRequests).Nodup) {id : String} {r : Request}
    (h : mapGet (l.foldl (cleanupChanStep now) t).connectionRequests id = some r) :
    mapGet t.connectionRequests id = some r := by
  induction l generalizing t with
  | nil => exact h
  | cons e tl ih =>
      rw [List.foldl_cons] at h
      have hnd2 : (keys (cleanupChanStep now t e).connectionRequests).Nodup := by
        unfold cleanupChanStep
        split
        · exact nodup_keys_foldl_delete _ hnd
        · exact hnd
      have h2 := ih hnd2 h
      revert h2
      unfold cleanupChanStep
      split
      · intro h2
        exact mapGet_foldl_delete_mono hnd h2
      · intro h2
        exact h2

theorem cleanup_reqs_mono {s : ServerState} (now : Nat) (hInv : Inv s)
    {id : String} {r : Request}
    (h : mapGet (cleanup now s).connectionRequests id = some r) :
    mapGet s.connectionRequests id = some r := by
  rw [cleanup_eq] at h
  exact foldl_cleanupReqStep_reqs_mono now _ hInv
    (foldl_cleanupChanStep_reqs_mono now _
      (inv_foldl_cleanupReqStep now _ hInv).2.2.1 h)

/-! ## Reachability of the concrete scenario states -/

theorem reachable_sA : Reachable sA :=
  Reachable.next Reachable.init
    (Step.step_request iA initState
      ⟨rfl, List.not_mem_nil _, fun e he => absurd he (List.not_mem_nil _)⟩
      rfl)

theorem reachable_sAB : Reachable sAB :=
  Reachable.next reachable_sA
    (Step.step_request iB sA ⟨by decide, by decide, by decide⟩
      (show mapGet sA.activeChannels iB.chName = none by decide))

theorem reachable_sABC : Reachable sABC :=
  Reachable.next reachable_sAB
    (Step.step_request iC sAB ⟨by decide, by decide, by decide⟩
      (show mapGet sAB.activeChannels iC.chName = none by decide))

theorem reachable_sABCD : Reachable sABCD :=
  Reachable.next reachable_sABC
    (Step.step_request iD sABC ⟨by decide, by decide, by decide⟩
      (show mapGet sABC.activeChannels iD.chName = none by decide))

/-! ## Claims -/

/-- C4: in every state reachable by any sequence of request-connection,
cancel-connection, end-call and cleanup operations, a request id is a
member of the waiting queue iff it is present in the request map with
status `'waiting'`. -/
theorem C4_queue_iff_waiting (s : ServerState) (h : Reachable s)
    (id : String) :
    id ∈ s.waitingQueue ↔
      ∃ r, mapGet s.connectionRequests id = some r ∧ r.status = .waiting :=
  (inv_reachable h).1 id

/-- Witness for C4 at the reachable state after request A. -/
theorem C4_queue_iff_waiting_witness :
    "rA" ∈ sA.waitingQueue ↔
      ∃ r, mapGet sA.connectionRequests "rA" = some r ∧
        r.status = .waiting :=
  C4_queue_iff_waiting sA reachable_sA "rA"

/-- C10: the end-call handler reads only `channelName` from the body;
for any two `userId` values (present or absent) it produces the same
resulting state and the same success response from the same state. -/
theorem C10_endCall_ignores_userId (ch : String) (u1 u2 : Option String)
    (s : ServerState) : endCall ch u1 s = endCall ch u2 s := rfl

/-- C2 counterexample: in the reachable state with active channel `chB`
pairing `rA` and `rB`, a caller-initiated end-call on `chB` deletes the
channel but leaves both constituent request ids in the request map,
contradicting the claimed cascading cleanup. -/
theorem C2_counterexample :
    mapGet sAB.activeChannels "chB" ≠ none ∧
    mapGet (endCall "chB" (some "alice") sAB).1.activeChannels "chB" = none ∧
    mapGet (endCall "chB" (some "alice") sAB).1.connectionRequests "rA" ≠
      none ∧
    mapGet (endCall "chB" (some "alice") sAB).1.connectionRequests "rB" ≠
      none := by
  decide

/-- C2 (amended): after a caller-initiated end-call the channel is
absent from the channel map, but the request map and the waiting queue
are completely unchanged — caller-initiated destruction does not
cascade to the two `ConnectionRequest` entries (only expiry-initiated
destruction does); the two ids are nevertheless absent from the
waiting queue, because a stored channel's ids are never waiting. -/
theorem C2_end_call_no_cascade (s : ServerState) (h : Reachable s)
    (ch : String) (u : Option String) :
    mapGet (endCall ch u s).1.activeChannels ch = none ∧
    (endCall ch u s).1.connectionRequests = s.connectionRequests ∧
    (endCall ch u s).1.waitingQueue = s.waitingQueue ∧
    ∀ c, mapGet s.activeChannels ch = some c →
      ∀ id ∈ c.requests, id ∉ (endCall ch u s).1.waitingQueue := by
  obtain ⟨hIff, hQnd, hRnd, hCnd, hCP, hCD⟩ := inv_reachable h
  by_cases hc : (mapGet s.activeChannels ch).isSome = true
  · rw [endCall_fst_present u hc]
    refine ⟨mapGet_delete_self hCnd, rfl, rfl, ?_⟩
    intro c hgc id hid hq
    obtain ⟨r, hgr, hst⟩ := (hIff id).mp hq
    have hp := hCP (ch, c) (mem_of_mapGet_eq_some hgc) id hid r hgr
    rw [hst] at hp
    exact Status.noConfusion hp
  · rw [endCall_fst_absent u hc]
    have hnone : mapGet s.activeChannels ch = none := by
      cases hgc : mapGet s.activeChannels ch with
      | none => rfl
      | some c =>
          rw [hgc] at hc
          exact absurd rfl hc
    refine ⟨hnone, rfl, rfl, ?_⟩
    intro c hgc
    rw [hnone] at hgc
    exact Option.noConfusion hgc

/-- Witness for C2 (amended) at the reachable state `sAB`. -/
theorem C2_end_call_no_cascade_witness :
    mapGet (endCall "chB" none sAB).1.activeChannels "chB" = none ∧
    (endCall "chB" none sAB).1.connectionRequests = sAB.connectionRequests ∧
    (endCall "chB" none sAB).1.waitingQueue = sAB.waitingQueue ∧
    ∀ c, mapGet sAB.activeChannels "chB" = some c →
      ∀ id ∈ c.requests, id ∉ (endCall "chB" none sAB).1.waitingQueue :=
  C2_end_call_no_cascade sAB reachable_sAB "chB" none

/-- C3 counterexample: in the reachable state `sAB`, request `rA` is
`'paired'` and its channel `chB` still exists, yet cancel-connection on
`rA` removes it from the request map — the claimed "no transition out
of Paired except channel teardown" fails. -/
theorem C3_counterexample :
    (mapGet sAB.connectionRequests "rA").map Request.status =
      some Status.paired ∧
    mapGet sAB.activeChannels "chB" ≠ none ∧
    mapGet (cancelConnection "rA" sAB).1.connectionRequests "rA" = none ∧
    mapGet (cancelConnection "rA" sAB).1.activeChannels "chB" ≠ none := by
  decide

/-- C3 (amended): cancel-connection deletes the named request from the
request map unconditionally, even when it is `'paired'` and its channel
still exists; the channel map is untouched (so the channel survives,
now referencing an unregistered id) and the queue is unchanged. -/
theorem C3_cancel_deletes_paired (s : ServerState) (h : Reachable s)
    (id : String) (r : Request)
    (hget : mapGet s.connectionRequests id = some r)
    (hst : r.status = .paired) :
    mapGet (cancelConnection id s).1.connectionRequests id = none ∧
    (cancelConnection id s).1.activeChannels = s.activeChannels ∧
    (cancelConnection id s).1.waitingQueue = s.waitingQueue := by
  obtain ⟨hIff, hQnd, hRnd, -, -, -⟩ := inv_reachable h
  have hqnot : id ∉ s.waitingQueue := by
    intro hm
    obtain ⟨r2, hg2, hs2⟩ := (hIff id).mp hm
    rw [hget] at hg2
    rw [← Option.some.inj hg2] at hs2
    rw [hst] at hs2
    exact Status.noConfusion hs2
  exact ⟨mapGet_delete_self hRnd, rfl, removeFirst_of_not_mem hqnot⟩

/-- Witness for C3 (amended): cancelling the paired `rA` at `sAB`. -/
theorem C3_cancel_deletes_paired_witness :
    mapGet (cancelConnection "rA" sAB).1.connectionRequests "rA" = none ∧
    (cancelConnection "rA" sAB).1.activeChannels = sAB.activeChannels ∧
    (cancelConnection "rA" sAB).1.waitingQueue = sAB.waitingQueue :=
  C3_cancel_deletes_paired sAB reachable_sAB "rA"
    (pairedWaiting iB (newReq iA)) (by decide) rfl

/-- C9: in any reachable state, cancelling an unregistered request id
and ending an absent channel name both answer success and leave the
whole state (request map, waiting queue, channel map) unchanged. -/
theorem C9_idempotent (s : ServerState) (h : Reachable s) :
    (∀ id, mapGet s.connectionRequests id = none →
      cancelConnection id s = (s, ⟨true⟩)) ∧
    (∀ ch u, mapGet s.activeChannels ch = none →
      endCall ch u s = (s, ⟨true⟩)) := by
  obtain ⟨hIff, hQnd, hRnd, -, -, -⟩ := inv_reachable h
  constructor
  · intro id hg
    have hq : id ∉ s.waitingQueue := by
      intro hm
      obtain ⟨r2, hg2, -⟩ := (hIff id).mp hm
      rw [hg] at hg2
      exact Option.noConfusion hg2
    unfold cancelConnection deleteBoth
    rw [mapDelete_of_not_mem ((mapGet_eq_none_iff _ _).mp hg),
      removeFirst_of_not_mem hq]
  · intro ch u hg
    unfold endCall
    rw [hg]
    rfl

/-- Witness for C9: absent targets at the reachable state `sAB`. -/
theorem C9_idempotent_witness :
    cancelConnection "zz" sAB = (sAB, ⟨true⟩) ∧
    endCall "zz" none sAB = (sAB, ⟨true⟩) :=
  ⟨(C9_idempotent sAB reachable_sAB).1 "zz" (by decide),
   (C9_idempotent sAB reachable_sAB).2 "zz" none (by decide)⟩

/-- C1 counterexample: at a state whose queue head `w1` is stale while
`w2` behind it is a valid waiting candidate, a new request does not
retry the dequeue: it is enqueued although the queue still holds the
candidate `w2`, and no pairing happens. -/
theorem C1_counterexample :
    "rNew" ∈ (requestConnection c1Input c1State).1.waitingQueue ∧
    "w2" ∈ (requestConnection c1Input c1State).1.waitingQueue ∧
    (requestConnection c1Input c1State).1.activeChannels = [] ∧
    (requestConnection c1Input c1State).2.paired = false := by
  decide

/-- C1 (amended): when the dequeued candidate is no longer a
`'waiting'` registry entry, the handler discards that candidate but
does not retry: the new request is immediately enqueued (behind any
candidates still in the queue), the channel map is unchanged, and the
caller gets a `paired: false` response. -/
theorem C1_no_retry (i : RCInput) (s : ServerState) (w : String)
    (rest : List String) (hq : s.waitingQueue = w :: rest)
    (hne : w ≠ i.reqId)
    (hbad : ∀ r, mapGet s.connectionRequests w = some r →
      r.status ≠ .waiting) :
    (requestConnection i s).1.waitingQueue = rest ++ [i.reqId] ∧
    (requestConnection i s).1.activeChannels = s.activeChannels ∧
    (requestConnection i s).2 = unpairedResp i := by
  cases hg : mapGet s.connectionRequests w with
  | none =>
      have hw : mapGet (mapSet s.connectionRequests i.reqId (newReq i)) w =
          none := by
        rw [mapGet_set_ne _ _ hne]
        exact hg
      rw [requestConnection_stale_absent i s hq hw]
      exact ⟨rfl, rfl, rfl⟩
  | some r =>
      have hst := hbad r hg
      have hw : mapGet (mapSet s.connectionRequests i.reqId (newReq i)) w =
          some r := by
        rw [mapGet_set_ne _ _ hne]
        exact hg
      rw [requestConnection_stale_paired i s hq hw hst]
      exact ⟨rfl, rfl, rfl⟩

/-- Witness for C1 (amended) at the concrete stale-head state. -/
theorem C1_no_retry_witness :
    (requestConnection c1Input c1State).1.waitingQueue =
      ["w2"] ++ [c1Input.reqId] ∧
    (requestConnection c1Input c1State).1.activeChannels =
      c1State.activeChannels ∧
    (requestConnection c1Input c1State).2 = unpairedResp c1Input :=
  C1_no_retry c1Input c1State "w1" ["w2"] rfl (by decide)
    (by
      intro r hr
      rw [show mapGet c1State.connectionRequests "w1" =
        (none : Option Request) from rfl] at hr
      exact Option.noConfusion hr)

/-- C7: from the empty state, alice's request answers `paired: false`
and leaves one queue entry; bob's request answers `paired: true`, uid 2,
creating channel `chB` with users exactly alice (slot 1) and bob
(slot 2); polling alice's request id afterwards reports paired with
uid 1 and the same channel name and topic bob's response carried. -/
theorem C7_scenario :
    (requestConnection iA initState).2.paired = false ∧
    sA.waitingQueue.length = 1 ∧
    (requestConnection iB sA).2.paired = true ∧
    mapGet sAB.activeChannels "chB" =
      some (newChannel iB "rA" (newReq iA)) ∧
    (newChannel iB "rA" (newReq iA)).users = ["alice", "bob"] ∧
    (requestConnection iB sA).2.uid = some 2 ∧
    (mapGet sAB.connectionRequests "rA").map Request.uid = some (some 1) ∧
    checkPairing "rA" sAB =
      CPResponse.pairedResp (some "tokB1") (some "chB") (some "tB")
        (some 1) ∧
    (requestConnection iB sA).2.channelName = some "chB" ∧
    (requestConnection iB sA).2.topic = some "tB" := by
  decide

/-- C5: in every reachable state, no request id belongs to the request
lists of two distinct stored channels; and across any single operation,
a registered request whose status has left `'waiting'` is never
`'waiting'` again afterwards (it can only stay non-waiting or be
deleted). -/
theorem C5_at_most_once (s : ServerState) (h : Reachable s) :
    (∀ n1 n2 c1 c2, mapGet s.activeChannels n1 = some c1 →
      mapGet s.activeChannels n2 = some c2 → n1 ≠ n2 →
      ∀ id ∈ c1.requests, id ∉ c2.requests) ∧
    (∀ t, Step s t → ∀ id r, mapGet s.connectionRequests id = some r →
      r.status ≠ .waiting → ∀ r2,
        mapGet t.connectionRequests id = some r2 →
        r2.status ≠ .waiting) := by
  have hInv := inv_reachable h
  obtain ⟨hIff, hQnd, hRnd, hCnd, hCP, hCD⟩ := hInv
  constructor
  · intro n1 n2 c1 c2 hg1 hg2 hne id hid
    have hm1 : (n1, c1) ∈ s.activeChannels := mem_of_mapGet_eq_some hg1
    have hm2 : (n2, c2) ∈ s.activeChannels := mem_of_mapGet_eq_some hg2
    have hpair := pairwise_mem_or hCD hm1 hm2
      (fun he => hne (congrArg Prod.fst he))
    rcases hpair with h1 | h1
    · exact h1 id hid
    · intro hid2
      exact h1 id hid2 hid
  · intro t hstep id r hget hstat r2 hget2
    cases hstep with
    | step_request i s hr hc =>
        obtain ⟨hfR, hfQ, hfC⟩ := hr
        have hir : id ≠ i.reqId := by
          intro he
          rw [he, hfR] at hget
          exact Option.noConfusion hget
        cases hq : s.waitingQueue with
        | nil =>
            rw [requestConnection_reqs_empty i s hq,
              mapGet_set_ne _ _ hir, hget] at hget2
            rw [← Option.some.inj hget2]
            exact hstat
        | cons w rest =>
            have hwq : w ∈ s.waitingQueue := hq ▸ List.mem_cons_self w rest
            obtain ⟨wr, hwget, hwst⟩ := (hIff w).mp hwq
            have hwne : w ≠ i.reqId := fun he => hfQ (he ▸ hwq)
            have hw1 : mapGet (mapSet s.connectionRequests i.reqId
                (newReq i)) w = some wr := by
              rw [mapGet_set_ne _ _ hwne]
              exact hwget
            have hiw : id ≠ w := by
              intro he
              rw [he, hwget] at hget
              exact hstat (Option.some.inj hget ▸ hwst)
            rw [requestConnection_reqs_paired i s hq hw1 hwst,
              mapGet_set_ne _ _ hir, mapGet_set_ne _ _ hiw,
              mapGet_set_ne _ _ hir, hget] at hget2
            rw [← Option.some.inj hget2]
            exact hstat
    | step_cancel reqId s =>
        rw [cancel_reqs] at hget2
        have h3 := mapGet_delete_mono hRnd hget2
        rw [hget] at h3
        rw [← Option.some.inj h3]
        exact hstat
    | step_end chName userId s =>
        rw [endCall_reqs] at hget2
        rw [hget] at hget2
        rw [← Option.some.inj hget2]
        exact hstat
    | step_cleanup now s =>
        have h3 := cleanup_reqs_mono now ⟨hIff, hQnd, hRnd, hCnd, hCP, hCD⟩
          hget2
        rw [hget] at h3
        rw [← Option.some.inj h3]
        exact hstat

/-- Witness for C5 at the reachable four-request state `sABCD`: the two
channels' request lists are disjoint, and `rA` stays non-waiting
across a cancel step. -/
theorem C5_at_most_once_witness :
    "rA" ∉ (newChannel iD "rC" (newReq iC)).requests ∧
    (pairedWaiting iB (newReq iA)).status ≠ Status.waiting :=
  ⟨(C5_at_most_once sABCD reachable_sABCD).1 "chB" "chD"
      (newChannel iB "rA" (newReq iA)) (newChannel iD "rC" (newReq iC))
      (by decide) (by decide) (by decide) "rA" (by decide),
   (C5_at_most_once sABCD reachable_sABCD).2
      (cancelConnection "zz" sABCD).1 (Step.step_cancel "zz" sABCD)
      "rA" (pairedWaiting iB (newReq iA)) (by decide) (by decide)
      (pairedWaiting iB (newReq iA)) (by decide)⟩

/-! ## Lemmas for the sweep postcondition -/

theorem cleanupReqStep_eq_of_cond {now : Nat} {s : ServerState} {x : String}
    {r : Request}
    (hcond : r.status = .waiting ∧ now - r.timestamp > REQUEST_TIMEOUT) :
    cleanupReqStep now s (x, r) = deleteBoth s x := by
  show (if r.status = Status.waiting ∧ now - r.timestamp > REQUEST_TIMEOUT
    then deleteBoth s x else s) = deleteBoth s x
  rw [if_pos hcond]

theorem cleanupReqStep_reqs_get_ne {now : Nat} {s : ServerState}
    {e : String × Request} {x : String} (hne : e.1 ≠ x) :
    mapGet (cleanupReqStep now s e).connectionRequests x =
      mapGet s.connectionRequests x := by
  unfold cleanupReqStep
  split
  · show mapGet (mapDelete s.connectionRequests e.1) x = _
    exact mapGet_delete_ne _ (fun h2 => hne h2.symm)
  · rfl

theorem cleanupChanStep_eq_of_cond {now : Nat} {t : ServerState} {nm : String}
    {c : Channel} (hcond : now - c.startTime > c.maxDuration) :
    cleanupChanStep now t (nm, c) =
      ⟨c.requests.foldl mapDelete t.connectionRequests, t.waitingQueue,
        mapDelete t.activeChannels nm⟩ := by
  show (if now - c.startTime > c.maxDuration
    then (⟨c.requests.foldl mapDelete t.connectionRequests, t.waitingQueue,
      mapDelete t.activeChannels nm⟩ : ServerState)
    else t) =
    ⟨c.requests.foldl mapDelete t.connectionRequests, t.waitingQueue,
      mapDelete t.activeChannels nm⟩
  rw [if_pos hcond]

theorem cleanupChanStep_chan_get_ne {now : Nat} {t : ServerState}
    {e : String × Channel} {nm : String} (hne : e.1 ≠ nm) :
    mapGet (cleanupChanStep now t e).activeChannels nm =
      mapGet t.activeChannels nm := by
  unfold cleanupChanStep
  split
  · show mapGet (mapDelete t.activeChannels e.1) nm = _
    exact mapGet_delete_ne _ (fun h2 => hne h2.symm)
  · rfl

theorem cleanupChanStep_reqs_nodup {now : Nat} {t : ServerState}
    (e : String × Channel) (hnd : (keys t.connectionRequests).Nodup) :
    (keys (cleanupChanStep now t e).connectionRequests).Nodup := by
  unfold cleanupChanStep
  split
  · exact nodup_keys_foldl_delete _ hnd
  · exact hnd

theorem cleanupChanStep_chan_nodup {now : Nat} {t : ServerState}
    (e : String × Channel) (hnd : (keys t.activeChannels).Nodup) :
    (keys (cleanupChanStep now t e).activeChannels).Nodup := by
  unfold cleanupChanStep
  split
  · exact nodup_keys_delete _ hnd
  · exact hnd

theorem foldl_cleanupReqStep_dead (now : Nat) (l : List (String × Request))
    {s : ServerState} {x : String} (h1 : mapGet s.connectionRequests x = none)
    (h2 : x ∉ s.waitingQueue) :
    mapGet (l.foldl (cleanupReqStep now) s).connectionRequests x = none ∧
      x ∉ (l.foldl (cleanupReqStep now) s).waitingQueue := by
  induction l generalizing s with
  | nil => exact ⟨h1, h2⟩
  | cons e tl ih =>
      rw [List.foldl_cons]
      apply ih
      · unfold cleanupReqStep
        split
        · show mapGet (mapDelete s.connectionRequests e.1) x = none
          exact mapGet_delete_none _ h1
        · exact h1
      · unfold cleanupReqStep
        split
        · show x ∉ removeFirst s.waitingQueue e.1
          exact fun hm => h2 (mem_of_mem_removeFirst hm)
        · exact h2

theorem foldl_cleanupChanStep_reqs_dead (now : Nat)
    (l : List (String × Channel)) {t : ServerState} {x : String}
    (h : mapGet t.connectionRequests x = none) :
    mapGet (l.foldl (cleanupChanStep now) t).connectionRequests x = none := by
  induction l generalizing t with
  | nil => exact h
  | cons e tl ih =>
      rw [List.foldl_cons]
      apply ih
      unfold cleanupChanStep
      split
      · show mapGet (e.2.requests.foldl mapDelete t.connectionRequests) x =
          none
        exact mapGet_foldl_delete_none _ h
      · exact h

theorem foldl_cleanupChanStep_chan_dead (now : Nat)
    (l : List (String × Channel)) {t : ServerState} {nm : String}
    (h : mapGet t.activeChannels nm = none) :
    mapGet (l.foldl (cleanupChanStep now) t).activeChannels nm = none := by
  induction l generalizing t with
  | nil => exact h
  | cons e tl ih =>
      rw [List.foldl_cons]
      apply ih
      unfold cleanupChanStep
      split
      · show mapGet (mapDelete t.activeChannels e.1) nm = none
        exact mapGet_delete_none _ h
      · exact h

theorem foldl_cleanupReqStep_kill (now : Nat) (l : List (String × Request))
    {s : ServerState} (hInv : Inv s) (hl : (l.map Prod.fst).Nodup)
    {x : String} {r : Request} (hmem : (x, r) ∈ l)
    (hget : mapGet s.connectionRequests x = some r)
    (hcond : r.status = .waiting ∧ now - r.timestamp > REQUEST_TIMEOUT) :
    mapGet (l.foldl (cleanupReqStep now) s).connectionRequests x = none ∧
      x ∉ (l.foldl (cleanupReqStep now) s).waitingQueue := by
  induction l generalizing s with
  | nil => exact absurd hmem (List.not_mem_nil _)
  | cons e tl ih =>
      rw [List.foldl_cons]
      rw [List.map_cons] at hl
      rcases List.mem_cons.mp hmem with h1 | h1
      · subst h1
        rw [cleanupReqStep_eq_of_cond hcond]
        exact foldl_cleanupReqStep_dead now tl
          (mapGet_delete_self hInv.2.2.1) (not_mem_removeFirst hInv.2.1)
      · have hx1 : e.1 ≠ x := by
          intro he
          have hx2 : x ∈ tl.map Prod.fst := List.mem_map_of_mem Prod.fst h1
          exact (List.nodup_cons.mp hl).1 (he.symm ▸ hx2)
        refine ih (inv_cleanupReqStep now e hInv) (List.nodup_cons.mp hl).2
          h1 ?_
        rw [cleanupReqStep_reqs_get_ne hx1]
        exact hget

theorem foldl_cleanupChanStep_kill (now : Nat) (l : List (String × Channel))
    {t : ServerState} (hndl : (l.map Prod.fst).Nodup) {nm : String}
    {c : Channel} (hmem : (nm, c) ∈ l)
    (hRnd : (keys t.connectionRequests).Nodup)
    (hCnd : (keys t.activeChannels).Nodup)
    (hget : mapGet t.activeChannels nm = some c)
    (hcond : now - c.startTime > c.maxDuration) :
    mapGet (l.foldl (cleanupChanStep now) t).activeChannels nm = none ∧
      ∀ id ∈ c.requests,
        mapGet (l.foldl (cleanupChanStep now) t).connectionRequests id =
          none := by
  induction l generalizing t with
  | nil => exact absurd hmem (List.not_mem_nil _)
  | cons e tl ih =>
      rw [List.foldl_cons]
      rw [List.map_cons] at hndl
      rcases List.mem_cons.mp hmem with h1 | h1
      · subst h1
        rw [cleanupChanStep_eq_of_cond hcond]
        constructor
        · exact foldl_cleanupChanStep_chan_dead now tl
            (mapGet_delete_self hCnd)
        · intro id hid
          exact foldl_cleanupChanStep_reqs_dead now tl
            (mapGet_foldl_delete_mem hRnd hid)
      · have hx1 : e.1 ≠ nm := by
          intro he
          have hx2 : nm ∈ tl.map Prod.fst := List.mem_map_of_mem Prod.fst h1
          exact (List.nodup_cons.mp hndl).1 (he.symm ▸ hx2)
        refine ih (List.nodup_cons.mp hndl).2 h1
          (cleanupChanStep_reqs_nodup e hRnd)
          (cleanupChanStep_chan_nodup e hCnd) ?_
        rw [cleanupChanStep_chan_get_ne hx1]
        exact hget

/-- C8: in any reachable state, one run of the sweep at time `now`
removes every `'waiting'` request older than the 5-minute timeout from
both the request map and the waiting queue, and removes every channel
older than its `maxDuration` from the channel map together with its two
associated requests. -/
theorem C8_sweep (s : ServerState) (now : Nat) (h : Reachable s) :
    (∀ id r, mapGet s.connectionRequests id = some r →
      r.status = .waiting → now - r.timestamp > REQUEST_TIMEOUT →
      mapGet (cleanup now s).connectionRequests id = none ∧
        id ∉ (cleanup now s).waitingQueue) ∧
    (∀ nm c, mapGet s.activeChannels nm = some c →
      now - c.startTime > c.maxDuration →
      mapGet (cleanup now s).activeChannels nm = none ∧
        ∀ id ∈ c.requests,
          mapGet (cleanup now s).connectionRequests id = none) := by
  have hInv := inv_reachable h
  constructor
  · intro id r hget hst hexp
    have hk := foldl_cleanupReqStep_kill now s.connectionRequests hInv
      hInv.2.2.1 (mem_of_mapGet_eq_some hget) hget ⟨hst, hexp⟩
    rw [cleanup_eq]
    constructor
    · exact foldl_cleanupChanStep_reqs_dead now _ hk.1
    · rw [foldl_cleanupChanStep_queue]
      exact hk.2
  · intro nm c hget hexp
    have hInv1 : Inv (s.connectionRequests.foldl (cleanupReqStep now) s) :=
      inv_foldl_cleanupReqStep now _ hInv
    have hget1 : mapGet
        (s.connectionRequests.foldl (cleanupReqStep now) s).activeChannels
        nm = some c := by
      rw [foldl_cleanupReqStep_channels]
      exact hget
    have hk := foldl_cleanupChanStep_kill now
      (s.connectionRequests.foldl (cleanupReqStep now) s).activeChannels
      hInv1.2.2.2.1 (mem_of_mapGet_eq_some hget1) hInv1.2.2.1
      hInv1.2.2.2.1 hget1 hexp
    rw [cleanup_eq]
    exact hk

/-- Witness for C8: sweeping at `now = 700000` evicts the expired
waiting request `rC` and the expired channel `chB` with both its
requests. -/
theorem C8_sweep_witness :
    (mapGet (cleanup 700000 sABC).connectionRequests "rC" = none ∧
      "rC" ∉ (cleanup 700000 sABC).waitingQueue) ∧
    (mapGet (cleanup 700000 sABC).activeChannels "chB" = none ∧
      ∀ id ∈ (newChannel iB "rA" (newReq iA)).requests,
        mapGet (cleanup 700000 sABC).connectionRequests id = none) :=
  ⟨(C8_sweep sABC 700000 reachable_sABC).1 "rC" (newReq iC) (by decide)
      rfl (by decide),
   (C8_sweep sABC 700000 reachable_sABC).2 "chB"
      (newChannel iB "rA" (newReq iA)) (by decide) (by decide)⟩

/-! ## FIFO pairing of an uninterrupted batch -/

theorem runReqs_pairs : ∀ (l : List RCInput) (s : ServerState),
    s.waitingQueue = [] → (l.map RCInput.reqId).Nodup →
    (l.map RCInput.chName).Nodup →
    (∀ i ∈ l, mapGet s.activeChannels i.chName = none) →
    (runReqs l s).activeChannels = s.activeChannels ++ pairChannels l
  | [], s, _, _, _, _ => by
      rw [show runReqs [] s = s from rfl,
        show pairChannels [] = [] from rfl, List.append_nil]
  | [i], s, hq, _, _, _ => by
      rw [show runReqs [i] s = (requestConnection i s).1 from rfl,
        requestConnection_fst_empty i s hq,
        show pairChannels [i] = [] from rfl, List.append_nil]
  | i1 :: i2 :: rest, s, hq, hnd, hcnd, hcf => by
      have hne12 : i1.reqId ≠ i2.reqId := by
        rw [List.map_cons, List.map_cons, List.nodup_cons] at hnd
        exact fun he => hnd.1 (by rw [he]; exact List.mem_cons_self _ _)
      have hS1 : (requestConnection i1 s).1 =
          ⟨mapSet s.connectionRequests i1.reqId (newReq i1), [i1.reqId],
            s.activeChannels⟩ := requestConnection_fst_empty i1 s hq
      have hq2 : (requestConnection i1 s).1.waitingQueue =
          i1.reqId :: [] := by
        rw [hS1]
      have hw2 : mapGet (mapSet (requestConnection i1 s).1.connectionRequests
          i2.reqId (newReq i2)) i1.reqId = some (newReq i1) := by
        rw [hS1, mapGet_set_ne _ _ hne12]
        exact mapGet_set_self _ _ _
      have hq3 : (requestConnection i2
          (requestConnection i1 s).1).1.waitingQueue = [] := by
        rw [requestConnection_fst_paired i2 (requestConnection i1 s).1 hq2
          hw2 rfl]
      have hch4 : (requestConnection i1 s).1.activeChannels =
          s.activeChannels := by
        rw [hS1]
      have hch3 : (requestConnection i2
          (requestConnection i1 s).1).1.activeChannels =
          mapSet s.activeChannels i2.chName
            (newChannel i2 i1.reqId (newReq i1)) := by
        rw [requestConnection_fst_paired i2 (requestConnection i1 s).1 hq2
          hw2 rfl, hch4]
      have hnd' : (rest.map RCInput.reqId).Nodup := by
        rw [List.map_cons, List.map_cons, List.nodup_cons,
          List.nodup_cons] at hnd
        exact hnd.2.2
      have hcnd' : (rest.map RCInput.chName).Nodup := by
        rw [List.map_cons, List.map_cons, List.nodup_cons,
          List.nodup_cons] at hcnd
        exact hcnd.2.2
      have hcf2 : mapGet s.activeChannels i2.chName = none :=
        hcf i2 (List.mem_cons_of_mem _ (List.mem_cons_self _ _))
      have hcf' : ∀ i ∈ rest, mapGet (requestConnection i2
          (requestConnection i1 s).1).1.activeChannels i.chName = none := by
        intro i hi
        have hne2i : i2.chName ≠ i.chName := by
          rw [List.map_cons, List.map_cons, List.nodup_cons,
            List.nodup_cons] at hcnd
          exact fun he =>
            hcnd.2.1 (by rw [he]; exact List.mem_map_of_mem RCInput.chName hi)
        rw [hch3, mapSet_of_get_none _ hcf2,
          mapGet_append_right _
            (hcf i (List.mem_cons_of_mem _ (List.mem_cons_of_mem _ hi))),
          mapGet_cons, if_neg hne2i, mapGet_nil]
      have hrec := runReqs_pairs rest
        (requestConnection i2 (requestConnection i1 s).1).1 hq3 hnd' hcnd'
        hcf'
      calc (runReqs (i1 :: i2 :: rest) s).activeChannels
          = (runReqs rest (requestConnection i2
              (requestConnection i1 s).1).1).activeChannels := rfl
        _ = (requestConnection i2
              (requestConnection i1 s).1).1.activeChannels ++
              pairChannels rest := hrec
        _ = mapSet s.activeChannels i2.chName
              (newChannel i2 i1.reqId (newReq i1)) ++ pairChannels rest := by
              rw [hch3]
        _ = (s.activeChannels ++
              [(i2.chName, newChannel i2 i1.reqId (newReq i1))]) ++
              pairChannels rest := by
              rw [mapSet_of_get_none _ hcf2]
        _ = s.activeChannels ++ pairChannels (i1 :: i2 :: rest) := by
              rw [List.append_assoc]
              rfl

theorem pairChannels_mem : ∀ (l : List RCInput) (k : Nat)
    (h1 : 2 * k < l.length) (h2 : 2 * k + 1 < l.length),
    ∃ nm c, (nm, c) ∈ pairChannels l ∧
      c.requests = [(l.get ⟨2 * k, h1⟩).reqId,
        (l.get ⟨2 * k + 1, h2⟩).reqId]
  | [], k, h1, _ => by
      rw [List.length_nil] at h1
      exact absurd h1 (Nat.not_lt_zero _)
  | [i], k, _, h2 => by
      simp only [List.length_cons, List.length_nil] at h2
      omega
  | i1 :: i2 :: rest, 0, h1, h2 =>
      ⟨i2.chName, newChannel i2 i1.reqId (newReq i1),
        List.mem_cons_self _ _, rfl⟩
  | i1 :: i2 :: rest, (k+1), h1, h2 => by
      have h1' : 2 * k < rest.length := by
        simp only [List.length_cons] at h1
        omega
      have h2' : 2 * k + 1 < rest.length := by
        simp only [List.length_cons] at h2
        omega
      obtain ⟨nm, c, hm, hreq⟩ := pairChannels_mem rest k h1' h2'
      refine ⟨nm, c, List.mem_cons_of_mem _ hm, ?_⟩
      rw [hreq]
      exact rfl

/-- C6: a batch of pairing requests processed from the empty start
state, with no other operation interleaved, pairs strictly in arrival
order: for every k, a channel is created whose request list is exactly
the (2k)-th and (2k+1)-th arrivals, in order — the head of the queue
(the longest-waiting request) is always matched first. -/
theorem C6_fifo (l : List RCInput) (hnd : (l.map RCInput.reqId).Nodup)
    (hch : (l.map RCInput.chName).Nodup) (k : Nat) (h1 : 2 * k < l.length)
    (h2 : 2 * k + 1 < l.length) :
    ∃ nm c, (nm, c) ∈ (runReqs l initState).activeChannels ∧
      c.requests = [(l.get ⟨2 * k, h1⟩).reqId,
        (l.get ⟨2 * k + 1, h2⟩).reqId] := by
  have hrun := runReqs_pairs l initState rfl hnd hch (fun i _ => rfl)
  rw [hrun, show initState.activeChannels = [] from rfl, List.nil_append]
  exact pairChannels_mem l k h1 h2

/-- Witness for C6: in a four-request batch, the third and fourth
arrivals pair together. -/
theorem C6_fifo_witness :
    ∃ nm c, (nm, c) ∈ (runReqs [iA, iB, iC, iD] initState).activeChannels ∧
      c.requests = [([iA, iB, iC, iD].get ⟨2 * 1, by decide⟩).reqId,
        ([iA, iB, iC, iD].get ⟨2 * 1 + 1, by decide⟩).reqId] :=
  C6_fifo [iA, iB, iC, iD] (by decide) (by decide) 1 (by decide) (by decide)

end SpeakBuddies
